import Mathlib

/-!
Verification of the otter scheduler (src/otter/scheduler.py).

The scheduler is a distributed, partitioned event scheduler: a timer tick
checks the partitioner state, drains due events from every owned bucket in
batches, executes each event through the scaling-group modify operation while
classifying failures, and finally reschedules recurring (cron) events that
were not tombstoned during the batch.

Deferred results are embedded as `Except ExecError Unit`; the shared mutable
tombstone set of `process_events` is threaded explicitly; the store is
abstracted by recording the argument of each store call in the result.
-/

namespace Otter

/-! ## Calendar model (minute resolution) -/

/-- A UTC timestamp at minute resolution, as used by the scheduler
(cron semantics are at minute resolution). -/
structure DateTime where
  year : Nat
  month : Nat
  day : Nat
  hour : Nat
  minute : Nat
deriving DecidableEq

/-- Gregorian leap-year rule. -/
def isLeap (y : Nat) : Bool :=
  (y % 4 == 0 && y % 100 != 0) || y % 400 == 0

/-- Number of days in a month of a given year. -/
def daysInMonth (y m : Nat) : Nat :=
  if m = 2 then (if isLeap y then 29 else 28)
  else if m = 4 ∨ m = 6 ∨ m = 9 ∨ m = 11 then 30
  else 31

/-- Advance a timestamp by one minute, with calendar rollover. -/
def addMinute (t : DateTime) : DateTime :=
  if t.minute + 1 < 60 then { t with minute := t.minute + 1 }
  else if t.hour + 1 < 24 then { t with minute := 0, hour := t.hour + 1 }
  else if t.day + 1 ≤ daysInMonth t.year t.month then
    { t with minute := 0, hour := 0, day := t.day + 1 }
  else if t.month + 1 ≤ 12 then
    { t with minute := 0, hour := 0, day := 1, month := t.month + 1 }
  else
    { year := t.year + 1, month := 1, day := 1, hour := 0, minute := 0 }

/-- A timestamp whose fields are in calendar range. -/
def DateTime.Valid (t : DateTime) : Prop :=
  1 ≤ t.month ∧ t.month ≤ 12 ∧ 1 ≤ t.day ∧ t.day ≤ daysInMonth t.year t.month ∧
  t.hour ≤ 23 ∧ t.minute ≤ 59

instance (t : DateTime) : Decidable t.Valid := by
  unfold DateTime.Valid
  infer_instance

/-- Linear key of a timestamp: strictly monotone along `addMinute` on valid
timestamps (digit bases 13, 32, 24, 60 dominate the field ranges). -/
def DateTime.key (t : DateTime) : Nat :=
  (((t.year * 13 + t.month) * 32 + t.day) * 24 + t.hour) * 60 + t.minute

/-- Day of week of a date, 0 = Sunday, via the Sakamoto formula. -/
def dayOfWeek (y m d : Nat) : Nat :=
  let offs : List Nat := [0, 3, 2, 5, 0, 3, 5, 1, 4, 6, 2, 4]
  let y2 := if m < 3 then y - 1 else y
  (y2 + y2 / 4 - y2 / 100 + y2 / 400 + offs.getD (m - 1) 0 + d) % 7

/-! ## Cron expressions

Modelled from the spec: the source delegates to the external `croniter`
library, which is not part of this repository; the spec fixes its contract as
computing the next occurrence strictly after now using standard cron field
semantics at minute resolution. -/

/-- One comma-separated component of a cron field: a wildcard with a step, a
single value, or a range with a step. -/
inductive CronPart where
  | star (step : Nat)
  | num (v : Nat)
  | range (lo hi step : Nat)
deriving DecidableEq

/-- Whether a part covers value `v`; `lo` is the minimum of the field
(0 for minutes, hours, weekdays; 1 for days and months). -/
def partCovers (lo : Nat) (p : CronPart) (v : Nat) : Bool :=
  match p with
  | .star s => decide ((v - lo) % s = 0)
  | .num a => decide (v = a)
  | .range a b s => decide (a ≤ v ∧ v ≤ b ∧ (v - a) % s = 0)

/-- Whether a whole field (list of parts) covers value `v`. -/
def fieldCovers (lo : Nat) (ps : List CronPart) (v : Nat) : Bool :=
  ps.any (fun p => partCovers lo p v)

/-- Split a character list on a separator, keeping empty chunks, mirroring
string splitting. -/
def splitOnChar (sep : Char) : List Char → List (List Char)
  | [] => [[]]
  | c :: rest =>
    let r := splitOnChar sep rest
    if c = sep then [] :: r
    else
      match r with
      | [] => [[c]]
      | g :: gs => (c :: g) :: gs

/-- Decimal value of a digit character, if it is one. -/
def digitVal (c : Char) : Option Nat :=
  if 48 ≤ c.toNat ∧ c.toNat ≤ 57 then some (c.toNat - 48) else none

/-- Accumulate a decimal number over characters. -/
def charsToNatAux (acc : Nat) : List Char → Option Nat
  | [] => some acc
  | c :: rest =>
    match digitVal c with
    | some d => charsToNatAux (acc * 10 + d) rest
    | none => none

/-- Parse a nonempty all-digit character list as a decimal number. -/
def charsToNat (cs : List Char) : Option Nat :=
  if cs = [] then none else charsToNatAux 0 cs

/-- Parse one comma-separated component, e.g. `*`, `7`, `1-5`, `*/15`,
`10-50/20`. -/
def parsePart (s : List Char) : Option CronPart :=
  let pieces := splitOnChar '/' s
  let base := pieces.headD s
  let step : Option Nat :=
    match pieces with
    | [_] => some 1
    | [_, st] => charsToNat st
    | _ => none
  match step with
  | none => none
  | some st =>
    if st = 0 then none
    else if base = ['*'] then some (.star st)
    else
      match splitOnChar '-' base with
      | [a] =>
        match charsToNat a with
        | some v => if st = 1 then some (.num v) else none
        | none => none
      | [a, b] =>
        match charsToNat a, charsToNat b with
        | some x, some y => some (.range x y st)
        | _, _ => none
      | _ => none

/-- Parse a whole cron field (comma-separated list of parts). -/
def parseField (s : List Char) : Option (List CronPart) :=
  (splitOnChar ',' s).mapM parsePart

/-- A parsed five-field cron expression: minute, hour, day of month, month,
day of week. -/
structure Cron where
  minute : List CronPart
  hour : List CronPart
  dom : List CronPart
  month : List CronPart
  dow : List CronPart
deriving DecidableEq

/-- Parse a five-field cron expression separated by whitespace. -/
def parseCron (s : String) : Option Cron :=
  match (splitOnChar ' ' s.data).filter (fun w => w ≠ []) with
  | [mi, h, dm, mo, dw] => do
    let fmi ← parseField mi
    let fh ← parseField h
    let fdm ← parseField dm
    let fmo ← parseField mo
    let fdw ← parseField dw
    pure ⟨fmi, fh, fdm, fmo, fdw⟩
  | _ => none

/-- Whether a field is the unrestricted wildcard, for the standard
day-of-month / day-of-week disjunction rule. -/
def isStarField (ps : List CronPart) : Bool :=
  ps == [CronPart.star 1]

/-- Whether a timestamp matches a cron expression under standard cron field
semantics: minute, hour and month must each be covered; the day matches by
day of month and day of week jointly, except that when both of those fields
are restricted a date matches if either covers it. -/
def cronMatches (c : Cron) (t : DateTime) : Bool :=
  fieldCovers 0 c.minute t.minute &&
  fieldCovers 0 c.hour t.hour &&
  fieldCovers 1 c.month t.month &&
  (let dw := dayOfWeek t.year t.month t.day
   let domOk := fieldCovers 1 c.dom t.day
   let dowOk := fieldCovers 0 c.dow dw || fieldCovers 0 c.dow (dw + 7)
   if !isStarField c.dom && !isStarField c.dow then domOk || dowOk
   else domOk && dowOk)

/-- Scan forward minute by minute for the first matching timestamp, with
fuel bounding the search (croniter likewise aborts a fruitless search). -/
def nextMatch (c : Cron) : Nat → DateTime → Option DateTime
  | 0, _ => none
  | fuel + 1, t => if cronMatches c t then some t else nextMatch c fuel (addMinute t)

/-- Search window: one leap year of minutes. -/
def cronSearchFuel : Nat := 527040

/-- Next occurrence of a cron expression strictly after `now`, at minute
resolution. Modelled from the spec: the source calls
`croniter(cron, start_time=utcnow).get_next()`; `croniter` is an external
library, specified to return the next occurrence strictly after now under
standard cron field semantics. `none` embeds a raised exception (unparsable
expression or exhausted search). -/
def next_cron_occurrence (cron : String) (now : DateTime) : Option DateTime :=
  (parseCron cron).bind (fun c => nextMatch c cronSearchFuel (addMinute now))

/-! ## Events and execution outcomes -/

/-- A scheduled event as stored and fetched by the scheduler: identity fields,
the due time, the recurrence expression (empty string for one-shot events) and
the policy version. -/
structure Event where
  tenantId : String
  groupId : String
  policyId : String
  trigger : DateTime
  cron : String
  version : Nat
deriving DecidableEq

/-- The error taxonomy the executor classifies: the expected refusal, the two
vanished-target errors, and everything else. -/
inductive ExecError where
  | cannotExecutePolicy
  | noSuchScalingGroup
  | noSuchPolicy
  | other (msg : String)
deriving DecidableEq

/-- Result a deferred fires with: either a failure carrying an error or a
success. -/
abbrev DeferredResult := Except ExecError Unit

/-- Modelled from the spec: `ignore_and_log` from `otter.util.deferredutils`
(not under src) traps exactly `CannotExecutePolicyError`, logs it and
continues: log at info level, continue, not tombstoned. Any other failure
passes through. -/
def ignore_and_log (r : DeferredResult) : DeferredResult :=
  match r with
  | .error .cannotExecutePolicy => .ok ()
  | r => r

/-- The inner errback of `execute_event`: traps `NoSuchScalingGroupError` and
`NoSuchPolicyError`, adds the policyId of the event to the shared tombstone
set and succeeds; any other failure passes through untouched. -/
def collect_deleted_policy (policyId : String) (deleted : List String)
    (r : DeferredResult) : List String × DeferredResult :=
  match r with
  | .error .noSuchScalingGroup => (deleted.insert policyId, .ok ())
  | .error .noSuchPolicy => (deleted.insert policyId, .ok ())
  | r => (deleted, r)

/-- The final `log.err` errback: logs any remaining failure and fires the
deferred with success. -/
def log_err (r : DeferredResult) : DeferredResult :=
  match r with
  | .error _ => .ok ()
  | r => r

/-- Execute a single event. `outcome` abstracts the serialized
`modify_state(maybe_execute_scaling_policy ...)` call on the scaling group of
the event; the three errbacks of the source are applied in order, threading
the shared tombstone set `deleted`. Returns the updated tombstone set and the
result the deferred of this event fires with. -/
def execute_event (outcome : Event → DeferredResult) (deleted : List String)
    (event : Event) : List String × DeferredResult :=
  let d0 := outcome event
  let d1 := ignore_and_log d0
  let (deleted1, d2) := collect_deleted_policy event.policyId deleted d1
  (deleted1, log_err d2)

/-- Run the executions of a batch in order, threading the shared tombstone
set, collecting every per-event result (`gatherResults` with
`consumeErrors=True`: all results are collected, none short-circuits). -/
def run_executions (outcome : Event → DeferredResult) :
    List Event → List String → List String × List DeferredResult
  | [], deleted => (deleted, [])
  | e :: rest, deleted =>
    let step := execute_event outcome deleted e
    let next := run_executions outcome rest step.1
    (next.1, step.2 :: next.2)

/-! ## Cron rescheduling -/

/-- Build the list of recreated cron events of a batch: every event with a
nonempty cron expression whose policyId is not tombstoned gets its trigger
replaced by the next cron occurrence; `none` embeds an exception raised by the
cron library, which aborts the step before the store call. -/
def build_cron_events (now : DateTime) (deleted : List String) :
    List Event → Option (List Event)
  | [] => some []
  | e :: rest =>
    if e.cron ≠ "" ∧ e.policyId ∉ deleted then
      match next_cron_occurrence e.cron now with
      | some t => (build_cron_events now deleted rest).map
          (fun l => { e with trigger := t } :: l)
      | none => none
    else build_cron_events now deleted rest

/-- Reschedule the recurring events of a batch. The result records the store
interaction: `none` when `store.add_cron_events` is not called (empty batch,
or an exception while recomputing occurrences), `some l` when it is called
with the list `l`. -/
def add_cron_events (now : DateTime) (events : List Event)
    (deleted : List String) : Option (List Event) :=
  if events = [] then none
  else build_cron_events now deleted events

/-! ## Batch processing -/

/-- What one `process_events` call did: the count its deferred fires with, the
result of every per-event deferred, the final shared tombstone set, and the
argument of the bulk-insert store call (`none` when no store call happened). -/
structure ProcessResult where
  count : Nat
  results : List DeferredResult
  deleted : List String
  submitted : Option (List Event)

/-- Process a batch of fetched events: empty batches return 0 immediately
(no execution, no rescheduling); otherwise all events execute sharing one
tombstone set, then the cron rescheduler runs once over the whole batch, and
the deferred fires with the number of events. -/
def process_events (outcome : Event → DeferredResult) (now : DateTime)
    (events : List Event) : ProcessResult :=
  if events = [] then ⟨0, [], [], none⟩
  else
    let (deleted, results) := run_executions outcome events []
    ⟨events.length, results, deleted, add_cron_events now events deleted⟩

/-! ## Bucket drain loop -/

/-- Drain loop of one bucket. `fetches` is the finite sequence of results
successive `fetch_and_delete` calls would return; the loop processes a batch
and re-polls exactly when the processed count equals `batchsize`. Returns the
batches actually fetched and processed. -/
def check_events_in_bucket (batchsize : Nat) : List (List Event) → List (List Event)
  | [] => []
  | f :: rest =>
    if f.length = batchsize then f :: check_events_in_bucket batchsize rest
    else [f]

/-! ## Tick state machine -/

/-- Observable state of the `SetPartitioner` handle. -/
inductive PartitionState where
  | allocating
  | allocated
  | release
  | failed
  | other (s : String)
deriving DecidableEq

/-- The partitioner handle: its state and, when allocated, the owned
buckets it iterates over. -/
structure Partitioner where
  state : PartitionState
  buckets : List Nat
deriving DecidableEq

/-- What one tick of `SchedulerService.check_events` does. -/
inductive TickAction where
  | noop
  | releaseSet
  | rejoinFresh (bucketSet : List Nat)
  | finishAndRejoin (bucketSet : List Nat)
  | poll (buckets : List Nat)
deriving DecidableEq

/-- One tick of the scheduler service: inspect the partitioner state in the
order of the source and either wait, run the release handshake, discard and
rejoin with the full bucket set, forcibly finish and rejoin on an unknown
state, or poll the owned buckets. Total by construction: no branch raises. -/
def check_events (allBuckets : List Nat) (p : Partitioner) : TickAction :=
  if p.state = .allocating then .noop
  else if p.state = .release then .releaseSet
  else if p.state = .failed then .rejoinFresh allBuckets
  else if p.state ≠ .allocated then .finishAndRejoin allBuckets
  else .poll p.buckets

/-! ## Service shutdown -/

/-- Observable operations of `stopService`. -/
inductive ServiceOp where
  | timerStop
  | partitionFinish
deriving DecidableEq

/-- Stop the service: stop the timer, then call the blocking
`kz_partition.finish()`; the deferred of the finish call (abstracted as
`finishResult`) is returned to the caller. The trace lists the operations in
the order they run. -/
def stopService {α : Type} (finishResult : α) : List ServiceOp × α :=
  ([ServiceOp.timerStop, ServiceOp.partitionFinish], finishResult)

/-! ## Lemmas about the executor -/

deriving instance DecidableEq for Except

/-- Closed form of `execute_event`: the deferred always fires with success,
and the tombstone set grows exactly on the two vanished-target errors. -/
theorem execute_event_eq (outcome : Event → DeferredResult) (deleted : List String)
    (e : Event) :
    execute_event outcome deleted e =
      (if outcome e = .error .noSuchScalingGroup ∨ outcome e = .error .noSuchPolicy
       then deleted.insert e.policyId else deleted, .ok ()) := by
  cases h : outcome e with
  | ok u =>
    cases u
    simp [execute_event, ignore_and_log, collect_deleted_policy, log_err, h]
  | error err =>
    cases err <;>
      simp [execute_event, ignore_and_log, collect_deleted_policy, log_err, h]

/-- Every per-event deferred in a batch fires with success. -/
theorem run_executions_results (outcome : Event → DeferredResult)
    (events : List Event) (deleted : List String) :
    (run_executions outcome events deleted).2 =
      events.map (fun _ => Except.ok ()) := by
  induction events generalizing deleted with
  | nil => rfl
  | cons e rest ih =>
    simp [run_executions, execute_event_eq, ih]

/-- Membership in the final tombstone set of a batch: exactly the initial
members plus the policyIds of events whose outcome was a vanished-target
error — independent of execution order. -/
theorem mem_run_executions_deleted (outcome : Event → DeferredResult)
    (events : List Event) (deleted : List String) (p : String) :
    p ∈ (run_executions outcome events deleted).1 ↔
      p ∈ deleted ∨ ∃ e ∈ events,
        (outcome e = .error .noSuchScalingGroup ∨ outcome e = .error .noSuchPolicy) ∧
        e.policyId = p := by
  induction events generalizing deleted with
  | nil => simp [run_executions]
  | cons e rest ih =>
    simp only [run_executions, execute_event_eq]
    by_cases h : outcome e = .error .noSuchScalingGroup ∨ outcome e = .error .noSuchPolicy
    · rw [if_pos h, ih]
      constructor
      · rintro (h2 | ⟨x, hx, hox, hxp⟩)
        · rcases List.mem_insert_iff.mp h2 with h3 | h3
          · exact Or.inr ⟨e, List.mem_cons_self .., h, h3.symm⟩
          · exact Or.inl h3
        · exact Or.inr ⟨x, List.mem_cons_of_mem _ hx, hox, hxp⟩
      · rintro (h2 | ⟨x, hx, hox, hxp⟩)
        · exact Or.inl (List.mem_insert_iff.mpr (Or.inr h2))
        · rcases List.mem_cons.mp hx with rfl | hx2
          · exact Or.inl (List.mem_insert_iff.mpr (Or.inl hxp.symm))
          · exact Or.inr ⟨x, hx2, hox, hxp⟩
    · rw [if_neg h, ih]
      constructor
      · rintro (h2 | ⟨x, hx, hox, hxp⟩)
        · exact Or.inl h2
        · exact Or.inr ⟨x, List.mem_cons_of_mem _ hx, hox, hxp⟩
      · rintro (h2 | ⟨x, hx, hox, hxp⟩)
        · exact Or.inl h2
        · rcases List.mem_cons.mp hx with rfl | hx2
          · exact absurd hox h
          · exact Or.inr ⟨x, hx2, hox, hxp⟩

/-! ## Lemmas about the cron rescheduler -/

/-- Every event in a built reschedule list comes from a surviving source
event: nonempty cron, not tombstoned, same fields apart from the trigger,
which is the computed next occurrence. -/
theorem build_cron_events_mem (now : DateTime) (deleted : List String)
    (events : List Event) :
    ∀ l, build_cron_events now deleted events = some l →
    ∀ e2 ∈ l, ∃ e ∈ events, e.cron ≠ "" ∧ e.policyId ∉ deleted ∧
      next_cron_occurrence e.cron now = some e2.trigger ∧
      e2 = { e with trigger := e2.trigger } := by
  induction events with
  | nil =>
    intro l h
    simp only [build_cron_events, Option.some.injEq] at h
    subst h
    intro e2 h2
    simp at h2
  | cons e rest ih =>
    intro l h
    by_cases hc : e.cron ≠ "" ∧ e.policyId ∉ deleted
    · rw [build_cron_events, if_pos hc] at h
      cases hn : next_cron_occurrence e.cron now with
      | none => rw [hn] at h; simp at h
      | some t =>
        rw [hn] at h
        cases hb : build_cron_events now deleted rest with
        | none => rw [hb] at h; simp at h
        | some l2 =>
          rw [hb] at h
          simp only [Option.map_some', Option.some.injEq] at h
          subst h
          intro e2 h2
          rcases List.mem_cons.mp h2 with rfl | h2
          · exact ⟨e, List.mem_cons_self .., hc.1, hc.2, hn, rfl⟩
          · obtain ⟨x, hx, hx1, hx2, hx3, hx4⟩ := ih l2 hb e2 h2
            exact ⟨x, List.mem_cons_of_mem _ hx, hx1, hx2, hx3, hx4⟩
    · rw [build_cron_events, if_neg hc] at h
      intro e2 h2
      obtain ⟨x, hx, hx1, hx2, hx3, hx4⟩ := ih l h e2 h2
      exact ⟨x, List.mem_cons_of_mem _ hx, hx1, hx2, hx3, hx4⟩

/-- A surviving event of the batch is present in the built reschedule list,
with its trigger replaced by the next occurrence. -/
theorem build_cron_events_mem_of (now : DateTime) (deleted : List String)
    (events : List Event) (e : Event)
    (hc : e.cron ≠ "") (hd : e.policyId ∉ deleted) :
    e ∈ events → ∀ l, build_cron_events now deleted events = some l →
    ∃ t, next_cron_occurrence e.cron now = some t ∧ { e with trigger := t } ∈ l := by
  induction events with
  | nil => intro he; simp at he
  | cons g rest ih =>
    intro he l h
    rcases List.mem_cons.mp he with rfl | he2
    · rw [build_cron_events, if_pos ⟨hc, hd⟩] at h
      cases hn : next_cron_occurrence e.cron now with
      | none => rw [hn] at h; simp at h
      | some t =>
        rw [hn] at h
        cases hb : build_cron_events now deleted rest with
        | none => rw [hb] at h; simp at h
        | some l2 =>
          rw [hb] at h
          simp only [Option.map_some', Option.some.injEq] at h
          subst h
          exact ⟨t, rfl, List.mem_cons_self ..⟩
    · by_cases hg : g.cron ≠ "" ∧ g.policyId ∉ deleted
      · rw [build_cron_events, if_pos hg] at h
        cases hn : next_cron_occurrence g.cron now with
        | none => rw [hn] at h; simp at h
        | some t =>
          rw [hn] at h
          cases hb : build_cron_events now deleted rest with
          | none => rw [hb] at h; simp at h
          | some l2 =>
            rw [hb] at h
            simp only [Option.map_some', Option.some.injEq] at h
            subst h
            obtain ⟨t2, ht2, hmem⟩ := ih he2 l2 hb
            exact ⟨t2, ht2, List.mem_cons_of_mem _ hmem⟩
      · rw [build_cron_events, if_neg hg] at h
        exact ih he2 l h

/-- When every event of a batch is dead (one-shot or tombstoned), the built
reschedule list is empty and no occurrence is computed. -/
theorem build_cron_events_dead (now : DateTime) (deleted : List String)
    (events : List Event)
    (h : ∀ e ∈ events, e.cron = "" ∨ e.policyId ∈ deleted) :
    build_cron_events now deleted events = some [] := by
  induction events with
  | nil => rfl
  | cons e rest ih =>
    have he := h e (List.mem_cons_self ..)
    have hneg : ¬(e.cron ≠ "" ∧ e.policyId ∉ deleted) := by
      rcases he with he | he
      · exact fun hcontra => hcontra.1 he
      · exact fun hcontra => hcontra.2 he
    rw [build_cron_events, if_neg hneg]
    exact ih (fun x hx => h x (List.mem_cons_of_mem _ hx))

/-! ## Lemmas about the calendar scan -/

/-- Month lengths lie between 28 and 31 days. -/
theorem daysInMonth_bounds (y m : Nat) :
    28 ≤ daysInMonth y m ∧ daysInMonth y m ≤ 31 := by
  unfold daysInMonth
  split
  · split <;> omega
  · split <;> omega

/-- Advancing by one minute preserves calendar validity. -/
theorem addMinute_valid (t : DateTime) (h : t.Valid) : (addMinute t).Valid := by
  obtain ⟨h1, h2, h3, h4, h5, h6⟩ := h
  have hd0 := daysInMonth_bounds t.year t.month
  have hd1 := daysInMonth_bounds t.year (t.month + 1)
  have hd2 := daysInMonth_bounds (t.year + 1) 1
  unfold DateTime.Valid addMinute
  split_ifs with a b c d <;> dsimp only <;> omega

/-- Advancing by one minute strictly increases the linear key of a valid
timestamp. -/
theorem addMinute_key_lt (t : DateTime) (h : t.Valid) :
    t.key < (addMinute t).key := by
  obtain ⟨h1, h2, h3, h4, h5, h6⟩ := h
  have hd0 := daysInMonth_bounds t.year t.month
  unfold DateTime.key addMinute
  split_ifs with a b c d <;> dsimp only <;> omega

/-- Iterated minute stepping preserves validity and never decreases the key. -/
theorem iterate_addMinute_valid_key (t : DateTime) (h : t.Valid) (n : Nat) :
    (addMinute^[n] t).Valid ∧ t.key ≤ (addMinute^[n] t).key := by
  induction n with
  | zero => exact ⟨h, le_refl _⟩
  | succ n ih =>
    rw [Function.iterate_succ_apply']
    exact ⟨addMinute_valid _ ih.1,
      le_trans ih.2 (le_of_lt (addMinute_key_lt _ ih.1))⟩

/-- The scan returns the first matching iterate: some index below the fuel
matches, and no earlier iterate does. -/
theorem nextMatch_eq_iterate (c : Cron) (fuel : Nat) (t t2 : DateTime)
    (h : nextMatch c fuel t = some t2) :
    ∃ n, n < fuel ∧ t2 = addMinute^[n] t ∧ cronMatches c t2 = true ∧
      ∀ m < n, cronMatches c (addMinute^[m] t) = false := by
  induction fuel generalizing t with
  | zero => simp [nextMatch] at h
  | succ fuel ih =>
    rw [nextMatch] at h
    by_cases hm : cronMatches c t
    · rw [if_pos hm, Option.some.injEq] at h
      subst h
      exact ⟨0, Nat.succ_pos _, rfl, hm, fun m hm2 => absurd hm2 (Nat.not_lt_zero m)⟩
    · rw [if_neg hm] at h
      obtain ⟨n, hn, ht2, hmatch, hmin⟩ := ih (addMinute t) h
      refine ⟨n + 1, by omega, by rw [Function.iterate_succ_apply]; exact ht2, hmatch, ?_⟩
      intro m hm2
      cases m with
      | zero => simpa using hm
      | succ m =>
        rw [Function.iterate_succ_apply]
        exact hmin m (by omega)

/-! ## Lemmas about the drain loop -/

/-- The drain loop performs at most one poll per available fetch result:
it terminates on every finite supply of fetch results. -/
theorem check_events_in_bucket_length_le (bs : Nat) (fetches : List (List Event)) :
    (check_events_in_bucket bs fetches).length ≤ fetches.length := by
  induction fetches with
  | nil => simp [check_events_in_bucket]
  | cons f rest ih =>
    rw [check_events_in_bucket]
    split
    · simpa using ih
    · simp

/-- While every fetch comes back full, the loop keeps re-polling and consumes
the whole supply. -/
theorem check_events_in_bucket_all_full (bs : Nat) (fetches : List (List Event))
    (h : ∀ g ∈ fetches, g.length = bs) :
    check_events_in_bucket bs fetches = fetches := by
  induction fetches with
  | nil => rfl
  | cons f rest ih =>
    rw [check_events_in_bucket, if_pos (h f (List.mem_cons_self ..))]
    rw [ih (fun g hg => h g (List.mem_cons_of_mem _ hg))]

/-- The loop stops at the first fetch returning fewer than a full batch:
everything before it is processed, nothing after it is fetched. -/
theorem check_events_in_bucket_stops (bs : Nat) (pre : List (List Event))
    (f : List Event) (post : List (List Event))
    (hpre : ∀ g ∈ pre, g.length = bs) (hf : f.length ≠ bs) :
    check_events_in_bucket bs (pre ++ f :: post) = pre ++ [f] := by
  induction pre with
  | nil => simp [check_events_in_bucket, if_neg hf]
  | cons g rest ih =>
    rw [List.cons_append, check_events_in_bucket,
      if_pos (hpre g (List.mem_cons_self ..)), List.cons_append]
    rw [ih (fun x hx => hpre x (List.mem_cons_of_mem _ hx))]

/-- Every due event is visited at most as often as the fetch supply offers
it: the loop never processes a batch twice. -/
theorem check_events_in_bucket_count_le (bs : Nat) (fetches : List (List Event))
    (e : Event) :
    ((check_events_in_bucket bs fetches).flatten).count e ≤ (fetches.flatten).count e := by
  induction fetches with
  | nil => simp [check_events_in_bucket]
  | cons f rest ih =>
    rw [check_events_in_bucket]
    split
    · simp only [List.flatten_cons, List.count_append]
      omega
    · simp only [List.flatten_cons, List.count_append, List.flatten_nil, List.count_nil]
      omega

/-- Closed form of `process_events` on a nonempty batch. -/
theorem process_events_ne (outcome : Event → DeferredResult) (now : DateTime)
    (events : List Event) (h : events ≠ []) :
    process_events outcome now events =
      ⟨events.length, (run_executions outcome events []).2,
       (run_executions outcome events []).1,
       add_cron_events now events (run_executions outcome events []).1⟩ := by
  rcases hrun : run_executions outcome events [] with ⟨d, rs⟩
  simp [process_events, h, hrun]

/-! ## Concrete fixtures used by the witnesses -/

/-- A tick instant used in concrete runs. -/
def wNow : DateTime := ⟨2021, 1, 1, 10, 15⟩

/-- The original due time of the fixture events. -/
def wTrig : DateTime := ⟨2021, 1, 1, 10, 0⟩

/-- The next top of the hour after `wNow`. -/
def wNext : DateTime := ⟨2021, 1, 1, 11, 0⟩

/-- A recurring event whose scaling group has vanished. -/
def wDead : Event := ⟨"t1", "g1", "p1", wTrig, "0 * * * *", 1⟩

/-- A recurring event that executes normally. -/
def wLive : Event := ⟨"t1", "g1", "p2", wTrig, "0 * * * *", 1⟩

/-- A recurring event refused because its cooldown has not elapsed. -/
def wCool : Event := ⟨"t1", "g1", "p3", wTrig, "0 * * * *", 1⟩

/-- A recurring event whose execution fails with an unclassified error. -/
def wBoom : Event := ⟨"t1", "g1", "p4", wTrig, "0 * * * *", 1⟩

/-- A one-shot event (empty cron expression). -/
def wOneShot : Event := ⟨"t1", "g1", "p5", wTrig, "", 1⟩

/-- Concrete execution outcomes for the fixture events. -/
def wOutcome : Event → DeferredResult := fun e =>
  if e.policyId = "p1" then .error .noSuchScalingGroup
  else if e.policyId = "p3" then .error .cannotExecutePolicy
  else if e.policyId = "p4" then .error (.other "boom")
  else .ok ()

/-! ## The claims -/

/-- Claim C1: for every batch of fetched events and every event in it whose
execution fails with NoSuchScalingGroupError or NoSuchPolicyError, the
policyId of that event is added to the shared tombstone set of the batch, the
other events in the batch still execute (every per-event deferred settles,
with success), and the cron rescheduler reinserts no event whose policyId is
tombstoned — regardless of where in the batch the failing event sits, so even
if other events referencing the same policyId executed first. -/
theorem tombstoned_policy_not_reinserted
    (outcome : Event → DeferredResult) (now : DateTime) (events : List Event)
    (e : Event) (he : e ∈ events)
    (hfail : outcome e = .error .noSuchScalingGroup ∨
      outcome e = .error .noSuchPolicy) :
    e.policyId ∈ (process_events outcome now events).deleted ∧
    (process_events outcome now events).results.length = events.length ∧
    (∀ r ∈ (process_events outcome now events).results, r = .ok ()) ∧
    (∀ l, (process_events outcome now events).submitted = some l →
      ∀ e2 ∈ l, e2.policyId ≠ e.policyId) := by
  have hne : events ≠ [] := by
    intro hcontra
    subst hcontra
    simp at he
  rw [process_events_ne outcome now events hne]
  dsimp only
  refine ⟨?_, ?_, ?_, ?_⟩
  · rw [mem_run_executions_deleted]
    exact Or.inr ⟨e, he, hfail, rfl⟩
  · rw [run_executions_results]
    simp
  · rw [run_executions_results]
    intro r hr
    obtain ⟨a, _, har⟩ := List.mem_map.mp hr
    exact har.symm
  · intro l hl e2 h2
    unfold add_cron_events at hl
    rw [if_neg hne] at hl
    obtain ⟨x, hx, _, hx2, _, hx4⟩ :=
      build_cron_events_mem now _ events l hl e2 h2
    intro hcontra
    apply hx2
    have hpx : e2.policyId = x.policyId := by rw [hx4]
    rw [← hpx, hcontra, mem_run_executions_deleted]
    exact Or.inr ⟨e, he, hfail, rfl⟩

/-- Witness for C1: with a dead policy p1 and a live policy p2 in one batch,
p1 lands in the tombstone set. -/
theorem tombstoned_policy_not_reinserted_witness :
    ("p1" : String) ∈ (process_events wOutcome wNow [wDead, wLive]).deleted :=
  (tombstoned_policy_not_reinserted wOutcome wNow [wDead, wLive] wDead
    (by decide) (Or.inl (by decide))).1

/-- Claim C2: the bucket drain loop performs at most one poll per available
fetch result (so it terminates on every finite supply), keeps re-polling
exactly while fetches come back with a full batch, stops at the first fetch
returning fewer than the batch size, and visits every due event at most as
often as the fetch supply contains it. -/
theorem bucket_drain_terminates (bs : Nat) (fetches : List (List Event)) :
    (check_events_in_bucket bs fetches).length ≤ fetches.length ∧
    ((∀ g ∈ fetches, g.length = bs) → check_events_in_bucket bs fetches = fetches) ∧
    (∀ pre f post, fetches = pre ++ f :: post → (∀ g ∈ pre, g.length = bs) →
      f.length < bs → check_events_in_bucket bs fetches = pre ++ [f]) ∧
    ∀ e : Event, ((check_events_in_bucket bs fetches).flatten).count e ≤
      (fetches.flatten).count e := by
  refine ⟨check_events_in_bucket_length_le bs fetches,
    check_events_in_bucket_all_full bs fetches, ?_,
    check_events_in_bucket_count_le bs fetches⟩
  rintro pre f post rfl hpre hf
  exact check_events_in_bucket_stops bs pre f post hpre (by omega)

/-- Witness for C2: with batch size 2, a full fetch followed by a short one,
the loop processes exactly those two fetches and stops. -/
theorem bucket_drain_terminates_witness :
    check_events_in_bucket 2 [[wDead, wLive], [wCool]] = [[wDead, wLive], [wCool]] :=
  (bucket_drain_terminates 2 [[wDead, wLive], [wCool]]).2.2.1
    [[wDead, wLive]] [wCool] [] rfl (by decide) (by decide)

/-- Claim C3: a tick polls buckets only in the allocated state; allocating is
a no-op, release runs only the release handshake, failed discards the
partitioner and rejoins fresh with the full bucket set, and any other
non-allocated state forcibly finishes and rejoins. The tick function is total
over all states: no branch raises. -/
theorem tick_polls_only_when_allocated (allBuckets : List Nat) (p : Partitioner) :
    (∀ bs, check_events allBuckets p = .poll bs →
      p.state = .allocated ∧ bs = p.buckets) ∧
    (p.state = .allocating → check_events allBuckets p = .noop) ∧
    (p.state = .release → check_events allBuckets p = .releaseSet) ∧
    (p.state = .failed → check_events allBuckets p = .rejoinFresh allBuckets) ∧
    (p.state ≠ .allocating → p.state ≠ .release → p.state ≠ .failed →
      p.state ≠ .allocated → check_events allBuckets p = .finishAndRejoin allBuckets) ∧
    (p.state = .allocated → check_events allBuckets p = .poll p.buckets) := by
  obtain ⟨st, bk⟩ := p
  cases st <;> simp [check_events]

/-- Witness for C3: an unrecognized partitioner state leads to
finish-and-rejoin with the full bucket set, not to a poll. -/
theorem tick_polls_only_when_allocated_witness :
    check_events [1, 2] ⟨PartitionState.other "weird", []⟩ =
      TickAction.finishAndRejoin [1, 2] :=
  (tick_polls_only_when_allocated [1, 2] ⟨PartitionState.other "weird", []⟩).2.2.2.2.1
    (by decide) (by decide) (by decide) (by decide)

/-- Claim C4: next_cron_occurrence computes the next occurrence of a cron
expression strictly after the current time at minute resolution under
standard cron field semantics: any returned occurrence matches the parsed
expression, is strictly later than a valid now, and is the first matching
minute of the scan; concretely, for cron 0 * * * * at 2021-01-01T10:15:00Z
the result is 2021-01-01T11:00:00Z. -/
theorem next_cron_occurrence_strictly_after :
    next_cron_occurrence "0 * * * *" ⟨2021, 1, 1, 10, 15⟩ =
      some ⟨2021, 1, 1, 11, 0⟩ ∧
    ∀ cron now t2, next_cron_occurrence cron now = some t2 →
      (now.Valid → now.key < t2.key ∧ t2.Valid) ∧
      ∃ c, parseCron cron = some c ∧ cronMatches c t2 = true ∧
        ∃ n, t2 = addMinute^[n + 1] now ∧
          ∀ m, 1 ≤ m → m ≤ n → cronMatches c (addMinute^[m] now) = false := by
  constructor
  · decide
  · intro cron now t2 h
    unfold next_cron_occurrence at h
    cases hp : parseCron cron with
    | none => rw [hp] at h; simp at h
    | some c =>
      rw [hp, Option.some_bind] at h
      obtain ⟨n, hn, ht2, hmatch, hmin⟩ := nextMatch_eq_iterate c _ _ _ h
      constructor
      · intro hv
        have hv1 := addMinute_valid now hv
        have h2 := iterate_addMinute_valid_key (addMinute now) hv1 n
        rw [ht2]
        refine ⟨lt_of_lt_of_le (addMinute_key_lt now hv) h2.2, h2.1⟩
      · refine ⟨c, rfl, hmatch, n, ?_, ?_⟩
        · rw [ht2, ← Function.iterate_succ_apply]
        · intro m h1m hmn
          have hrw : addMinute^[m] now = addMinute^[m - 1] (addMinute now) := by
            conv_lhs => rw [show m = (m - 1) + 1 by omega]
            rw [Function.iterate_succ_apply]
          rw [hrw]
          exact hmin (m - 1) (by omega)

/-- Witness for C4: at the concrete instant, the returned top of the hour is
strictly later and calendar-valid. -/
theorem next_cron_occurrence_strictly_after_witness :
    (⟨2021, 1, 1, 10, 15⟩ : DateTime).key < (⟨2021, 1, 1, 11, 0⟩ : DateTime).key ∧
    (⟨2021, 1, 1, 11, 0⟩ : DateTime).Valid :=
  ((next_cron_occurrence_strictly_after).2 "0 * * * *" ⟨2021, 1, 1, 10, 15⟩
    ⟨2021, 1, 1, 11, 0⟩ (by decide)).1 (by decide)

/-- Claim C5: an event whose serialized modify operation fails with
CannotExecutePolicyError is logged and continued: its execution leaves the
tombstone set unchanged and fires with success, and if its cron expression is
nonempty (and no event of the batch tombstones its policyId) it is still
rescheduled — same event apart from the recomputed trigger — whenever the
bulk insert happens. -/
theorem cannot_execute_policy_continues
    (outcome : Event → DeferredResult) (e : Event)
    (h : outcome e = .error .cannotExecutePolicy) :
    (∀ deleted, execute_event outcome deleted e = (deleted, .ok ())) ∧
    ∀ now events, e ∈ events →
      (∀ e2 ∈ events, e2.policyId = e.policyId →
        outcome e2 ≠ .error .noSuchScalingGroup ∧
        outcome e2 ≠ .error .noSuchPolicy) →
      e.cron ≠ "" →
      ∀ l, (process_events outcome now events).submitted = some l →
        ∃ t, next_cron_occurrence e.cron now = some t ∧
          { e with trigger := t } ∈ l := by
  constructor
  · intro deleted
    rw [execute_event_eq, if_neg]
    rw [h]
    simp
  · intro now events he hsafe hcron l hl
    have hne : events ≠ [] := by
      intro hcontra
      subst hcontra
      simp at he
    rw [process_events_ne _ _ _ hne] at hl
    dsimp only at hl
    unfold add_cron_events at hl
    rw [if_neg hne] at hl
    have hd : e.policyId ∉ (run_executions outcome events []).1 := by
      rw [mem_run_executions_deleted]
      rintro (h0 | ⟨x, hx, hox, hxp⟩)
      · simp at h0
      · rcases hox with hox | hox
        · exact (hsafe x hx hxp).1 hox
        · exact (hsafe x hx hxp).2 hox
    exact build_cron_events_mem_of now _ events e hcron hd he l hl

/-- Witness for C5: a cooldown-refused policy p3 next to a live one is not
tombstoned and its recurring event is reinserted with the next occurrence. -/
theorem cannot_execute_policy_continues_witness :
    ∃ t, next_cron_occurrence wCool.cron wNow = some t ∧
      { wCool with trigger := t } ∈
        [{ wCool with trigger := wNext }, { wLive with trigger := wNext }] :=
  (cannot_execute_policy_continues wOutcome wCool (by decide)).2 wNow
    [wCool, wLive] (by decide) (by decide) (by decide)
    [{ wCool with trigger := wNext }, { wLive with trigger := wNext }] (by decide)

/-- Claim C6: an event failing with an error outside the classified taxonomy
is logged and absorbed: its execution fires with success and leaves the
tombstone set unchanged, every event in the batch still produces an outcome,
the batch-level deferred completes with the full count, and the cron
rescheduling step still runs over the whole batch. -/
theorem unknown_error_absorbed
    (outcome : Event → DeferredResult) (now : DateTime) (events : List Event)
    (e : Event) (he : e ∈ events) (msg : String)
    (h : outcome e = .error (.other msg)) :
    (∀ deleted, execute_event outcome deleted e = (deleted, .ok ())) ∧
    (process_events outcome now events).count = events.length ∧
    (process_events outcome now events).results.length = events.length ∧
    (∀ r ∈ (process_events outcome now events).results, r = .ok ()) ∧
    (process_events outcome now events).submitted =
      add_cron_events now events (process_events outcome now events).deleted := by
  have hne : events ≠ [] := by
    intro hcontra
    subst hcontra
    simp at he
  refine ⟨?_, ?_, ?_, ?_, ?_⟩
  · intro deleted
    rw [execute_event_eq, if_neg]
    rw [h]
    simp
  · rw [process_events_ne outcome now events hne]
  · rw [process_events_ne outcome now events hne]
    dsimp only
    rw [run_executions_results]
    simp
  · rw [process_events_ne outcome now events hne]
    dsimp only
    rw [run_executions_results]
    intro r hr
    obtain ⟨a, _, har⟩ := List.mem_map.mp hr
    exact har.symm
  · rw [process_events_ne outcome now events hne]

/-- Witness for C6: a batch with an unclassified failure still completes with
the full count. -/
theorem unknown_error_absorbed_witness :
    (process_events wOutcome wNow [wBoom, wLive]).count = 2 :=
  (unknown_error_absorbed wOutcome wNow [wBoom, wLive] wBoom (by decide)
    "boom" (by decide)).2.1

/-- Claim C7: the cron rescheduler never submits an event with an empty cron
expression to the bulk insert (one-shot events are consumed permanently), and
an empty batch performs no store call at all. -/
theorem one_shot_events_not_recreated (now : DateTime) (deleted : List String) :
    (∀ events l, add_cron_events now events deleted = some l →
      ∀ e2 ∈ l, e2.cron ≠ "") ∧
    add_cron_events now [] deleted = none ∧
    ∀ outcome, (process_events outcome now []).submitted = none := by
  refine ⟨?_, ?_, ?_⟩
  · intro events l hl e2 h2
    unfold add_cron_events at hl
    by_cases hne : events = []
    · subst hne
      simp at hl
    · rw [if_neg hne] at hl
      obtain ⟨x, _, hx1, _, _, hx4⟩ :=
        build_cron_events_mem now deleted events l hl e2 h2
      have : e2.cron = x.cron := by rw [hx4]
      rw [this]
      exact hx1
  · unfold add_cron_events
    simp
  · intro outcome
    rfl

/-- Witness for C7: a concrete reschedule list built from a recurring event
contains no empty cron expression. -/
theorem one_shot_events_not_recreated_witness :
    ({ wLive with trigger := wNext } : Event).cron ≠ "" :=
  (one_shot_events_not_recreated wNow ["p9"]).1 [wLive]
    [{ wLive with trigger := wNext }] (by decide)
    { wLive with trigger := wNext } (by decide)

/-- Claim C8: every event submitted by the cron rescheduler keeps the
tenantId, groupId, policyId, cron and version of the fetched event it was
derived from; only the trigger differs, being the computed next occurrence. -/
theorem rescheduled_event_preserves_identity (now : DateTime)
    (events : List Event) (deleted : List String) (l : List Event)
    (h : add_cron_events now events deleted = some l) :
    ∀ e2 ∈ l, ∃ e ∈ events,
      e2.tenantId = e.tenantId ∧ e2.groupId = e.groupId ∧
      e2.policyId = e.policyId ∧ e2.cron = e.cron ∧ e2.version = e.version ∧
      next_cron_occurrence e.cron now = some e2.trigger := by
  intro e2 h2
  unfold add_cron_events at h
  by_cases hne : events = []
  · subst hne
    simp at h
  · rw [if_neg hne] at h
    obtain ⟨x, hx, _, _, hx3, hx4⟩ :=
      build_cron_events_mem now deleted events l h e2 h2
    exact ⟨x, hx, by rw [hx4], by rw [hx4], by rw [hx4], by rw [hx4],
      by rw [hx4], hx3⟩

/-- Witness for C8: the concrete reinserted event derives from the fetched
live event with identical identity fields. -/
theorem rescheduled_event_preserves_identity_witness :
    ∃ e ∈ [wLive],
      ({ wLive with trigger := wNext } : Event).tenantId = e.tenantId ∧
      ({ wLive with trigger := wNext } : Event).groupId = e.groupId ∧
      ({ wLive with trigger := wNext } : Event).policyId = e.policyId ∧
      ({ wLive with trigger := wNext } : Event).cron = e.cron ∧
      ({ wLive with trigger := wNext } : Event).version = e.version ∧
      next_cron_occurrence e.cron wNow =
        some ({ wLive with trigger := wNext } : Event).trigger :=
  rescheduled_event_preserves_identity wNow [wLive] []
    [{ wLive with trigger := wNext }] (by decide)
    { wLive with trigger := wNext } (by decide)

/-- Claim C9: stopping the service stops the tick timer first and then calls
the blocking finish operation of the partitioner, returning its completion to
the caller. -/
theorem stop_service_blocks_on_finish {α : Type} (finishResult : α) :
    (stopService finishResult).1.indexOf ServiceOp.timerStop <
      (stopService finishResult).1.indexOf ServiceOp.partitionFinish ∧
    ServiceOp.partitionFinish ∈ (stopService finishResult).1 ∧
    (stopService finishResult).2 = finishResult := by
  refine ⟨?_, ?_, rfl⟩ <;> (dsimp [stopService]; decide)

/-- Claim C10: a nonempty batch in which no event survives rescheduling
(every event is one-shot or tombstoned) still invokes the bulk insert, with
the empty list — the no-store-call short-circuit applies only to an empty
batch. -/
theorem empty_surviving_list_still_inserted (now : DateTime)
    (events : List Event) (deleted : List String) (h1 : events ≠ [])
    (h2 : ∀ e ∈ events, e.cron = "" ∨ e.policyId ∈ deleted) :
    add_cron_events now events deleted = some [] := by
  unfold add_cron_events
  rw [if_neg h1]
  exact build_cron_events_dead now deleted events h2

/-- Witness for C10: a batch of one one-shot event and one tombstoned event
still calls the bulk insert with the empty list. -/
theorem empty_surviving_list_still_inserted_witness :
    add_cron_events wNow [wOneShot, wDead] ["p1"] = some [] :=
  empty_surviving_list_still_inserted wNow [wOneShot, wDead] ["p1"]
    (by decide) (by decide)

end Otter
